import Mathlib

/-!
Verification of the Site Image Collection & Naming Engine frontend
(`LandingPage.jsx`, `UploadPage.jsx`) against its natural-language
specification.  Strings are embedded as `List Char`; the JavaScript
`String.prototype.replace` used by `getPreviewFilename` is embedded
including its `$`-replacement-pattern semantics (`$$`, `$&`, the
backquote form and the quote form), since the naming-format renderer
is applied to caller-supplied values.
-/

/-- Left brace character (written via its code point). -/
def lbrace : Char := Char.ofNat 123

/-- Right brace character (written via its code point). -/
def rbrace : Char := Char.ofNat 125

/-- Dollar character, the escape head of JS replacement patterns. -/
def dollarChar : Char := '$'

/-- Backquote character (code point 96), the JS pattern for the text before the match. -/
def backquoteChar : Char := Char.ofNat 96

/-- Straight quote character (code point 39), the JS pattern for the text after the match. -/
def quoteChar : Char := Char.ofNat 39

/-- Does the first list occur as a prefix of the second? -/
def startsWith : List Char → List Char → Bool
  | [], _ => true
  | _ :: _, [] => false
  | p :: ps, c :: cs => p == c && startsWith ps cs

/-- JS GetSubstitution for a regex without capture groups: expand the
replacement string, interpreting the four recognized dollar escapes
against the matched text and its original-string context. -/
def jsSubst (matched before after : List Char) : List Char → List Char
  | [] => []
  | [c] => [c]
  | c :: d :: rest2 =>
    if c == dollarChar then
      if d == dollarChar then d :: jsSubst matched before after rest2
      else if d == '&' then matched ++ jsSubst matched before after rest2
      else if d == backquoteChar then before ++ jsSubst matched before after rest2
      else if d == quoteChar then after ++ jsSubst matched before after rest2
      else c :: jsSubst matched before after (d :: rest2)
    else c :: jsSubst matched before after (d :: rest2)

/-- Scanner for a global literal-pattern JS replace.  `before` is the
already-scanned prefix of the original string (context for the dollar
escapes); a positive first argument skips the remaining characters of
a match whose substitution has already been emitted. -/
def jsReplaceGo (p : Char) (tk repl : List Char) (before : List Char) : Nat → List Char → List Char
  | _, [] => []
  | n + 1, _ :: rest => jsReplaceGo p tk repl before n rest
  | 0, c :: rest =>
    if c == p && startsWith tk rest then
      jsSubst (p :: tk) before (List.drop tk.length rest) repl
        ++ jsReplaceGo p tk repl (before ++ p :: tk) tk.length rest
    else c :: jsReplaceGo p tk repl (before ++ [c]) 0 rest

/-- `s.replace(/pat/g, repl)` for a literal pattern `pat`. -/
def jsReplace (pat repl s : List Char) : List Char :=
  match pat with
  | [] => s
  | p :: tk => jsReplaceGo p tk repl [] 0 s

/-- The placeholder token `{site_id}` of the naming format. -/
def tokSite : List Char := String.toList "{site_id}"

/-- The placeholder token `{category}` of the naming format. -/
def tokCategory : List Char := String.toList "{category}"

/-- The placeholder token `{component_name}` of the naming format. -/
def tokComponent : List Char := String.toList "{component_name}"

/-- Tail of `{site_id}` after its opening brace. -/
def tailSite : List Char := String.toList "site_id\x7d"

/-- Tail of `{category}` after its opening brace. -/
def tailCategory : List Char := String.toList "category\x7d"

/-- Tail of `{component_name}` after its opening brace. -/
def tailComponent : List Char := String.toList "component_name\x7d"

/-- The synthetic component name the preview binds `{component_name}` to. -/
def sampleComponent : List Char := String.toList "Antenna_Front_View"

/-- Is a character kept by the sanitizer character class `[a-zA-Z0-9_-]`? -/
def isSafeChar (c : Char) : Bool :=
  c.isAlphanum || c == '_' || c == '-'

/-- One step of `preview.replace(/[^a-zA-Z0-9_-]/g, '_')`. -/
def sanitizeChar (c : Char) : Char :=
  if isSafeChar c then c else '_'

/-- `preview.replace(/[^a-zA-Z0-9_-]/g, '_')`: every character outside
the whitelist becomes an underscore. -/
def sanitize (s : List Char) : List Char := s.map sanitizeChar

/-- The three sequential placeholder substitutions of `getPreviewFilename`,
in source order: `{site_id}`, then `{category}`, then `{component_name}`. -/
def substSeq (format site cat comp : List Char) : List Char :=
  jsReplace tokComponent comp (jsReplace tokCategory cat (jsReplace tokSite site format))

/-- `getPreviewFilename` from `UploadPage`: substitute the three
placeholders sequentially, sanitize, and append the constant `.jpg`. -/
def getPreviewFilename (editableNamingFormat siteId activeCategory : List Char) : List Char :=
  sanitize (substSeq editableNamingFormat siteId activeCategory sampleComponent)
    ++ String.toList ".jpg"

/-- Scanner for the simultaneous (single-pass) substitution of the three
placeholders; a positive first argument skips the rest of an emitted token. -/
def substSimGo (site cat comp : List Char) : Nat → List Char → List Char
  | _, [] => []
  | n + 1, _ :: rest => substSimGo site cat comp n rest
  | 0, c :: rest =>
    if c == lbrace && startsWith tailSite rest then
      site ++ substSimGo site cat comp tailSite.length rest
    else if c == lbrace && startsWith tailCategory rest then
      cat ++ substSimGo site cat comp tailCategory.length rest
    else if c == lbrace && startsWith tailComponent rest then
      comp ++ substSimGo site cat comp tailComponent.length rest
    else c :: substSimGo site cat comp 0 rest

/-- Order-independent simultaneous substitution of the three placeholders:
one left-to-right pass replacing each recognized token by its bound value. -/
def substSim (site cat comp format : List Char) : List Char :=
  substSimGo site cat comp 0 format

/-- Modelled from the spec: the Template Renderer contract of section 4.1 is
implemented by the backend, which is not part of the sources; per its words it
substitutes each recognized placeholder verbatim (order-independent, i.e.
simultaneous), sanitizes with the same character class, and appends a dot plus
the uploaded file's extension lower-cased. -/
def render (format site cat comp ext : List Char) : List Char :=
  sanitize (substSim site cat comp format) ++ '.' :: ext.map Char.toLower

/-- Does the string avoid both brace characters? -/
def braceFree (s : List Char) : Bool :=
  s.all fun c => !(c == lbrace) && !(c == rbrace)

/-- Does the string avoid the dollar character? -/
def noDollar (s : List Char) : Bool :=
  s.all fun c => !(c == dollarChar)

/-- A binding value that can neither form nor break placeholder tokens:
no braces and no dollar escapes. -/
def cleanValue (s : List Char) : Bool :=
  braceFree s && noDollar s

/-- A naming format decomposed into its literal runs and placeholder tokens. -/
inductive Piece
  | lit : List Char → Piece
  | site : Piece
  | cat : Piece
  | comp : Piece

/-- The text of one format piece. -/
def Piece.flat : Piece → List Char
  | .lit s => s
  | .site => tokSite
  | .cat => tokCategory
  | .comp => tokComponent

/-- The format string denoted by a list of pieces. -/
def flatPieces (ps : List Piece) : List Char :=
  (ps.map Piece.flat).foldr (· ++ ·) []

/-- Is every literal run of the decomposition brace-free (so that braces
occur only as token delimiters)? -/
def wfPieces (ps : List Piece) : Bool :=
  ps.all fun p =>
    match p with
    | .lit s => braceFree s
    | _ => true

/-- Outcome of the component-removal handler: whether the "must have at
least one component" error fired, and the resulting editable list. -/
structure RemoveOutcome where
  error : Bool
  names : List (List Char)
deriving DecidableEq

/-- `editableNames.filter((_, i) => i !== index)` from `handleRemoveComponent`. -/
def removeAt (names : List (List Char)) (index : Nat) : List (List Char) :=
  ((names.enum.filter fun p => p.1 != index).map Prod.snd)

/-- `handleRemoveComponent` from `UploadPage`: refuse to shrink a list of at
most one entry, otherwise drop the entry at the given position. -/
def handleRemoveComponent (editableNames : List (List Char)) (index : Nat) : RemoveOutcome :=
  if editableNames.length ≤ 1 then ⟨true, editableNames⟩
  else ⟨false, removeAt editableNames index⟩

/-- Result kind of the registry-replace operation. -/
inductive ReplaceOutcome
  | emptyTaxonomyError
  | ok
deriving DecidableEq

/-- Modelled from the spec: `replaceComponents` of section 4.2 lives in the
backend, which is not part of the sources; per its words it fails with
`EmptyTaxonomyError` on an empty sequence (leaving the stored list unchanged)
and otherwise replaces the registry with the entries, each trimmed. -/
def replaceComponents (stored names : List (List Char)) :
    ReplaceOutcome × List (List Char) :=
  if names.isEmpty then (.emptyTaxonomyError, stored)
  else (.ok, names.map fun n =>
    ((n.dropWhile (·.isWhitespace)).reverse.dropWhile (·.isWhitespace)).reverse)

/-- `listComponents` of section 4.2: the currently stored component names. -/
def listComponents (stored : List (List Char)) : List (List Char) := stored

/-- The fixed category identifiers enumerated by the category tabs and the
category-edit modal: the literal array `['alpha', 'beta', 'gamma']`. -/
def categories : List (List Char) :=
  [String.toList "alpha", String.toList "beta", String.toList "gamma"]

/-- `category.charAt(0).toUpperCase() + category.slice(1)`. -/
def capitalize : List Char → List Char
  | [] => []
  | c :: rest => c.toUpper :: rest

/-- Lookup in a JS-object-as-association-list. -/
def getKey (m : List (List Char × List Char)) (k : List Char) : Option (List Char) :=
  match m with
  | [] => none
  | (k', v) :: rest => if k' = k then some v else getKey rest k

/-- JS object key assignment `m[k] = v`: replace the value of an existing
key in place, otherwise append the new key. -/
def setKey (m : List (List Char × List Char)) (k v : List Char) :
    List (List Char × List Char) :=
  match m with
  | [] => [(k, v)]
  | (k', v') :: rest => if k' = k then (k', v) :: rest else (k', v') :: setKey rest k v

/-- `categoryNames[category] || category.charAt(0).toUpperCase() + category.slice(1)`:
the displayed label of a category tab, falling back to the capitalized
identifier when no label is stored or the stored label is empty (falsy). -/
def displayLabel (labels : List (List Char × List Char)) (c : List Char) : List Char :=
  match getKey labels c with
  | some l => if l.isEmpty then capitalize c else l
  | none => capitalize c

/-- The category tab row: identifier and displayed label for each of the
three fixed categories, in order. -/
def categoryTabs (labels : List (List Char × List Char)) :
    List (List Char × List Char) :=
  categories.map fun c => (c, displayLabel labels c)

/-- One record of the backend response for fetching a category's images. -/
structure ImageRec where
  component_name : List Char
  filename : List Char
deriving DecidableEq

/-- `fetchCategoryImages` map construction: `imagesMap[img.component_name] =
img.filename` over the response records in order, starting from `{}`. -/
def buildImagesMap (images : List ImageRec) : List (List Char × List Char) :=
  images.foldl (fun m img => setKey m img.component_name img.filename) []

/-- `getImageUrl` from `UploadPage`: `null` when the slot has no (truthy)
filename, otherwise the stored-image URL. -/
def getImageUrl (uploadedImages : List (List Char × List Char))
    (backendUrl siteId activeCategory componentName : List Char) : Option (List Char) :=
  match getKey uploadedImages componentName with
  | none => none
  | some filename =>
    if filename.isEmpty then none
    else some (backendUrl ++ String.toList "/uploads/" ++ siteId ++ String.toList "/"
      ++ activeCategory ++ String.toList "/" ++ filename)

/-- Modelled from the spec: the Archive Builder of section 4.4 is backend code
absent from the sources; per its words it iterates the three fixed categories
in a fixed deterministic order, enumerates each category's currently filled
slots from the slot store, renders each entry name with the current naming
format against that slot's bindings (the entry's extension taken from the
stored upload), writes one container entry per slot, and fails with
`NoImagesError` (here `none`) when no slot in any category is filled. -/
def buildArchive (slots : List Char → List ImageRec) (format site : List Char)
    (extOf : ImageRec → List Char) : Option (List (List Char × List Char)) :=
  if ((categories.map fun cat =>
        (slots cat).map fun r =>
          (render format site cat r.component_name (extOf r), r.filename)).flatten).isEmpty then
    none
  else
    some ((categories.map fun cat =>
      (slots cat).map fun r =>
        (render format site cat r.component_name (extOf r), r.filename)).flatten)

/-- Whitespace for the purposes of JS `String.prototype.trim`: the ECMAScript
WhiteSpace characters (tab, VT, FF, space, NBSP, ZWNBSP and the Unicode
Space_Separator category) together with the LineTerminator characters. -/
def isJsWhitespace (c : Char) : Bool :=
  c == ' ' || c == '\t' || c == '\n' || c == '\r' || c == '\x0b' || c == '\x0c'
    || c == '\xa0' || c == Char.ofNat 0xfeff || c == Char.ofNat 0x2028 || c == Char.ofNat 0x2029
    || c == Char.ofNat 0x1680
    || c == Char.ofNat 0x2000 || c == Char.ofNat 0x2001 || c == Char.ofNat 0x2002
    || c == Char.ofNat 0x2003 || c == Char.ofNat 0x2004 || c == Char.ofNat 0x2005
    || c == Char.ofNat 0x2006 || c == Char.ofNat 0x2007 || c == Char.ofNat 0x2008
    || c == Char.ofNat 0x2009 || c == Char.ofNat 0x200a
    || c == Char.ofNat 0x202f || c == Char.ofNat 0x205f || c == Char.ofNat 0x3000

/-- `siteId.trim()`. -/
def jsTrim (s : List Char) : List Char :=
  ((s.dropWhile isJsWhitespace).reverse.dropWhile isJsWhitespace).reverse

/-- `handleSubmit` from `LandingPage`: navigate to `/upload/` plus the

trimmed site id when the trimmed id is truthy (non-empty), else do nothing. -/
def handleSubmit (siteId : List Char) : Option (List Char) :=
  if (jsTrim siteId).isEmpty then none
  else some (String.toList "/upload/" ++ jsTrim siteId)

theorem startsWith_append_self : ∀ (u x : List Char), startsWith u (u ++ x) = true
  | [], _ => rfl
  | c :: u, x => by simp [startsWith, startsWith_append_self u x]

theorem jsSubst_noDollar (matched before after : List Char) :
    ∀ repl : List Char, noDollar repl = true → jsSubst matched before after repl = repl
  | [], _ => rfl
  | [_], _ => rfl
  | c :: d :: rest2, h => by
    have hc : (c == dollarChar) = false := by
      have := (List.all_eq_true.mp h) c (List.mem_cons_self ..)
      simpa using this
    have hrest : noDollar (d :: rest2) = true := by
      simp only [noDollar, List.all_cons, Bool.and_eq_true] at h ⊢
      exact ⟨h.2.1, h.2.2⟩
    simp [jsSubst, hc, jsSubst_noDollar matched before after (d :: rest2) hrest]

theorem jsReplaceGo_before (p : Char) (tk repl : List Char) (h : noDollar repl = true) :
    ∀ (s : List Char) (n : Nat) (b b' : List Char),
      jsReplaceGo p tk repl b n s = jsReplaceGo p tk repl b' n s
  | [], n, _, _ => by cases n <;> rfl
  | _ :: rest, n + 1, b, b' => by
    simp only [jsReplaceGo]
    exact jsReplaceGo_before p tk repl h rest n b b'
  | c :: rest, 0, b, b' => by
    simp only [jsReplaceGo]
    split
    · rw [jsSubst_noDollar _ _ _ _ h, jsSubst_noDollar _ _ _ _ h,
        jsReplaceGo_before p tk repl h rest tk.length (b ++ p :: tk) (b' ++ p :: tk)]
    · rw [jsReplaceGo_before p tk repl h rest 0 (b ++ [c]) (b' ++ [c])]

theorem jsReplaceGo_skip (p : Char) (tk repl b : List Char) :
    ∀ (t z : List Char), jsReplaceGo p tk repl b t.length (t ++ z) = jsReplaceGo p tk repl b 0 z
  | [], _ => rfl
  | c :: t, z => by
    simp only [List.cons_append, List.length_cons, jsReplaceGo]
    exact jsReplaceGo_skip p tk repl b t z

theorem jsReplaceGo_lit (p : Char) (tk repl : List Char) :
    ∀ (u : List Char), (∀ c ∈ u, (c == p) = false) →
      ∀ (x b : List Char),
        jsReplaceGo p tk repl b 0 (u ++ x) = u ++ jsReplaceGo p tk repl (b ++ u) 0 x
  | [], _, x, b => by simp
  | c :: u, hu, x, b => by
    have hc : (c == p) = false := hu c (List.mem_cons_self ..)
    simp only [List.cons_append, jsReplaceGo, List.append_eq, hc, Bool.false_and,
      Bool.false_eq_true, if_false]
    rw [jsReplaceGo_lit p tk repl u (fun d hd => hu d (List.mem_cons_of_mem _ hd)) x (b ++ [c])]
    simp

theorem jsReplaceGo_match (p : Char) (tk repl : List Char) (x b : List Char) :
    jsReplaceGo p tk repl b 0 ((p :: tk) ++ x)
      = jsSubst (p :: tk) b x repl ++ jsReplaceGo p tk repl (b ++ p :: tk) 0 x := by
  have h1 : ((p == p) && startsWith tk (tk ++ x)) = true := by
    simp [startsWith_append_self]
  have h2 : List.drop tk.length (tk ++ x) = x := by
    simp
  simp only [List.cons_append, jsReplaceGo, List.append_eq, h1, if_true, h2]
  rw [← jsReplaceGo_skip p tk repl (b ++ p :: tk) tk x]

theorem tokSite_cons : tokSite = lbrace :: tailSite := rfl

theorem tokCategory_cons : tokCategory = lbrace :: tailCategory := rfl

theorem tokComponent_cons : tokComponent = lbrace :: tailComponent := rfl

theorem substSimGo_skip (site cat comp : List Char) :
    ∀ (t z : List Char),
      substSimGo site cat comp t.length (t ++ z) = substSimGo site cat comp 0 z
  | [], _ => rfl
  | c :: t, z => by
    simp only [List.cons_append, List.length_cons, substSimGo]
    exact substSimGo_skip site cat comp t z

theorem substSimGo_lit (site cat comp : List Char) :
    ∀ (u : List Char), (∀ c ∈ u, (c == lbrace) = false) →
      ∀ x : List Char, substSimGo site cat comp 0 (u ++ x) = u ++ substSimGo site cat comp 0 x
  | [], _, _ => by simp
  | c :: u, hu, x => by
    have hc : (c == lbrace) = false := hu c (List.mem_cons_self ..)
    simp only [List.cons_append, substSimGo, List.append_eq, hc, Bool.false_and,
      Bool.false_eq_true, if_false]
    rw [substSimGo_lit site cat comp u (fun d hd => hu d (List.mem_cons_of_mem _ hd)) x]

theorem substSim_tokSite (site cat comp x : List Char) :
    substSimGo site cat comp 0 (tokSite ++ x) = site ++ substSimGo site cat comp 0 x := by
  rw [show tokSite ++ x = lbrace :: (tailSite ++ x) from rfl]
  have h1 : ((lbrace == lbrace) && startsWith tailSite (tailSite ++ x)) = true := by
    simp [startsWith_append_self]
  simp only [substSimGo, List.append_eq, h1, if_true]
  simp

theorem substSim_tokCategory (site cat comp x : List Char) :
    substSimGo site cat comp 0 (tokCategory ++ x) = cat ++ substSimGo site cat comp 0 x := by
  rw [show tokCategory ++ x = lbrace :: (tailCategory ++ x) from rfl]
  have h1 : ((lbrace == lbrace) && startsWith tailSite (tailCategory ++ x)) = false := by
    rw [show startsWith tailSite (tailCategory ++ x) = false from rfl]
    simp
  have h2 : ((lbrace == lbrace) && startsWith tailCategory (tailCategory ++ x)) = true := by
    simp [startsWith_append_self]
  simp only [substSimGo, List.append_eq, h1, h2, Bool.false_eq_true, if_false, if_true]
  simp

theorem substSim_tokComponent (site cat comp x : List Char) :
    substSimGo site cat comp 0 (tokComponent ++ x) = comp ++ substSimGo site cat comp 0 x := by
  rw [show tokComponent ++ x = lbrace :: (tailComponent ++ x) from rfl]
  have h1 : ((lbrace == lbrace) && startsWith tailSite (tailComponent ++ x)) = false := by
    rw [show startsWith tailSite (tailComponent ++ x) = false from rfl]
    simp
  have h2 : ((lbrace == lbrace) && startsWith tailCategory (tailComponent ++ x)) = false := by
    rw [show startsWith tailCategory (tailComponent ++ x) = false from rfl]
    simp
  have h3 : ((lbrace == lbrace) && startsWith tailComponent (tailComponent ++ x)) = true := by
    simp [startsWith_append_self]
  simp only [substSimGo, List.append_eq, h1, h2, h3, Bool.false_eq_true, if_false, if_true]
  simp

theorem jsReplace_lit (p : Char) (tk repl u x : List Char) (hrep : noDollar repl = true)
    (hu : ∀ c ∈ u, (c == p) = false) :
    jsReplace (p :: tk) repl (u ++ x) = u ++ jsReplace (p :: tk) repl x := by
  simp only [jsReplace]
  rw [jsReplaceGo_lit p tk repl u hu x []]
  rw [jsReplaceGo_before p tk repl hrep x 0 ([] ++ u) []]

theorem jsReplace_match (p : Char) (tk repl x : List Char) (hrep : noDollar repl = true) :
    jsReplace (p :: tk) repl ((p :: tk) ++ x) = repl ++ jsReplace (p :: tk) repl x := by
  simp only [jsReplace]
  rw [jsReplaceGo_match p tk repl x []]
  rw [jsSubst_noDollar _ _ _ _ hrep]
  rw [jsReplaceGo_before p tk repl hrep x 0 ([] ++ p :: tk) []]

theorem jsReplace_skipTok (p : Char) (tk repl tj x : List Char) (hrep : noDollar repl = true)
    (h1 : startsWith tk (tj ++ x) = false) (h2 : ∀ c ∈ tj, (c == p) = false) :
    jsReplace (p :: tk) repl ((p :: tj) ++ x) = (p :: tj) ++ jsReplace (p :: tk) repl x := by
  simp only [jsReplace]
  have hcond : ((p == p) && startsWith tk (tj ++ x)) = false := by simp [h1]
  simp only [List.cons_append, jsReplaceGo, List.append_eq, hcond, Bool.false_eq_true, if_false]
  rw [jsReplaceGo_lit p tk repl tj h2 x ([] ++ [p])]
  rw [jsReplaceGo_before p tk repl hrep x 0 _ []]

theorem cleanValue_noDollar {v : List Char} (h : cleanValue v = true) : noDollar v = true := by
  simp only [cleanValue, Bool.and_eq_true] at h
  exact h.2

theorem braceFree_noLBrace {u : List Char} (h : braceFree u = true) :
    ∀ c ∈ u, (c == lbrace) = false := by
  intro c hc
  simp only [braceFree, List.all_eq_true] at h
  have := h c hc
  simp only [Bool.and_eq_true, Bool.not_eq_true'] at this
  exact this.1

theorem cleanValue_noLBrace {v : List Char} (h : cleanValue v = true) :
    ∀ c ∈ v, (c == lbrace) = false := by
  simp only [cleanValue, Bool.and_eq_true] at h
  exact braceFree_noLBrace h.1

theorem pass1_lit (site u x : List Char) (hs : cleanValue site = true)
    (hu : ∀ c ∈ u, (c == lbrace) = false) :
    jsReplace tokSite site (u ++ x) = u ++ jsReplace tokSite site x := by
  rw [tokSite_cons]
  exact jsReplace_lit _ _ _ _ _ (cleanValue_noDollar hs) hu

theorem pass2_lit (cat u x : List Char) (hc : cleanValue cat = true)
    (hu : ∀ c ∈ u, (c == lbrace) = false) :
    jsReplace tokCategory cat (u ++ x) = u ++ jsReplace tokCategory cat x := by
  rw [tokCategory_cons]
  exact jsReplace_lit _ _ _ _ _ (cleanValue_noDollar hc) hu

theorem pass3_lit (comp u x : List Char) (hm : cleanValue comp = true)
    (hu : ∀ c ∈ u, (c == lbrace) = false) :
    jsReplace tokComponent comp (u ++ x) = u ++ jsReplace tokComponent comp x := by
  rw [tokComponent_cons]
  exact jsReplace_lit _ _ _ _ _ (cleanValue_noDollar hm) hu

theorem pass1_site (site x : List Char) (hs : cleanValue site = true) :
    jsReplace tokSite site (tokSite ++ x) = site ++ jsReplace tokSite site x := by
  rw [tokSite_cons]
  exact jsReplace_match _ _ _ _ (cleanValue_noDollar hs)

theorem pass2_cat (cat x : List Char) (hc : cleanValue cat = true) :
    jsReplace tokCategory cat (tokCategory ++ x) = cat ++ jsReplace tokCategory cat x := by
  rw [tokCategory_cons]
  exact jsReplace_match _ _ _ _ (cleanValue_noDollar hc)

theorem pass3_comp (comp x : List Char) (hm : cleanValue comp = true) :
    jsReplace tokComponent comp (tokComponent ++ x) = comp ++ jsReplace tokComponent comp x := by
  rw [tokComponent_cons]
  exact jsReplace_match _ _ _ _ (cleanValue_noDollar hm)

theorem pass1_skipCat (site x : List Char) (hs : cleanValue site = true) :
    jsReplace tokSite site (tokCategory ++ x) = tokCategory ++ jsReplace tokSite site x := by
  rw [tokSite_cons, tokCategory_cons]
  exact jsReplace_skipTok lbrace tailSite site tailCategory x (cleanValue_noDollar hs)
    rfl (by decide)

theorem pass1_skipComp (site x : List Char) (hs : cleanValue site = true) :
    jsReplace tokSite site (tokComponent ++ x) = tokComponent ++ jsReplace tokSite site x := by
  rw [tokSite_cons, tokComponent_cons]
  exact jsReplace_skipTok lbrace tailSite site tailComponent x (cleanValue_noDollar hs)
    rfl (by decide)

theorem pass2_skipComp (cat x : List Char) (hc : cleanValue cat = true) :
    jsReplace tokCategory cat (tokComponent ++ x) = tokComponent ++ jsReplace tokCategory cat x := by
  rw [tokCategory_cons, tokComponent_cons]
  exact jsReplace_skipTok lbrace tailCategory cat tailComponent x (cleanValue_noDollar hc)
    rfl (by decide)

theorem substSeq_eq_substSim (site cat comp : List Char)
    (hs : cleanValue site = true) (hc : cleanValue cat = true) (hm : cleanValue comp = true) :
    ∀ ps : List Piece, wfPieces ps = true →
      substSeq (flatPieces ps) site cat comp = substSim site cat comp (flatPieces ps)
  | [], _ => rfl
  | p :: ps, hwf => by
    have hwf2 : wfPieces ps = true := by
      simp only [wfPieces, List.all_cons, Bool.and_eq_true] at hwf
      exact hwf.2
    have IH := substSeq_eq_substSim site cat comp hs hc hm ps hwf2
    simp only [substSeq, substSim] at IH ⊢
    rw [show flatPieces (p :: ps) = p.flat ++ flatPieces ps from rfl]
    cases p with
    | lit u =>
      have hu : ∀ c ∈ u, (c == lbrace) = false := by
        simp only [wfPieces, List.all_cons, Bool.and_eq_true] at hwf
        exact braceFree_noLBrace hwf.1
      rw [show Piece.flat (.lit u) = u from rfl]
      rw [pass1_lit site u _ hs hu, pass2_lit cat u _ hc hu, pass3_lit comp u _ hm hu,
        substSimGo_lit site cat comp u hu _, IH]
    | site =>
      rw [show Piece.flat .site = tokSite from rfl]
      rw [pass1_site site _ hs,
        pass2_lit cat site _ hc (cleanValue_noLBrace hs),
        pass3_lit comp site _ hm (cleanValue_noLBrace hs),
        substSim_tokSite, IH]
    | cat =>
      rw [show Piece.flat .cat = tokCategory from rfl]
      rw [pass1_skipCat site _ hs, pass2_cat cat _ hc,
        pass3_lit comp cat _ hm (cleanValue_noLBrace hc),
        substSim_tokCategory, IH]
    | comp =>
      rw [show Piece.flat .comp = tokComponent from rfl]
      rw [pass1_skipComp site _ hs, pass2_skipComp cat _ hc, pass3_comp comp _ hm,
        substSim_tokComponent, IH]

theorem braceFree_noRBrace {u : List Char} (h : braceFree u = true) :
    ∀ c ∈ u, (c == rbrace) = false := by
  intro c hc
  simp only [braceFree, List.all_eq_true] at h
  have := h c hc
  simp only [Bool.and_eq_true, Bool.not_eq_true'] at this
  exact this.2

theorem startsWith_length_le :
    ∀ (tk x z : List Char), (∀ c ∈ tk, (c == lbrace) = false) →
      startsWith tk (x ++ lbrace :: z) = true → tk.length ≤ x.length
  | [], _, _, _, _ => by simp
  | e :: tk, [], z, htk, h => by
    exfalso
    simp only [List.nil_append, startsWith, Bool.and_eq_true] at h
    have := htk e (List.mem_cons_self ..)
    rw [this] at h
    exact Bool.false_ne_true h.1
  | e :: tk, a :: x, z, htk, h => by
    simp only [List.cons_append, startsWith, Bool.and_eq_true] at h
    have := startsWith_length_le tk x z (fun c hc => htk c (List.mem_cons_of_mem _ hc)) h.2
    simpa using Nat.succ_le_succ this

theorem startsWith_tail_ne :
    ∀ (wk w z : List Char), (∀ c ∈ wk, (c == rbrace) = false) →
      (∀ c ∈ w, (c == rbrace) = false) → w ≠ wk →
      startsWith (wk ++ [rbrace]) (w ++ rbrace :: z) = false
  | [], [], _, _, _, hne => absurd rfl hne
  | [], a :: w, z, _, hw, _ => by
    have ha : (rbrace == a) = false := by
      have := hw a (List.mem_cons_self ..)
      cases hab : rbrace == a
      · rfl
      · rw [show a = rbrace from (eq_of_beq hab).symm] at this
        simp at this
    simp [startsWith, ha]
  | e :: wk, [], z, hk, _, _ => by
    have he : (e == rbrace) = false := hk e (List.mem_cons_self ..)
    simp [startsWith, he]
  | e :: wk, a :: w, z, hk, hw, hne => by
    simp only [List.cons_append, List.append_eq, startsWith]
    cases he : e == a
    · simp
    · have hea : e = a := eq_of_beq he
      have hwne : w ≠ wk := by
        intro hcontra
        exact hne (by rw [hcontra, hea])
      rw [startsWith_tail_ne wk w z (fun c hc => hk c (List.mem_cons_of_mem _ hc))
        (fun c hc => hw c (List.mem_cons_of_mem _ hc)) hwne]
      simp

theorem jsReplaceGo_skipLen (p : Char) (tk repl b t z : List Char) (n : Nat)
    (h : t.length = n) :
    jsReplaceGo p tk repl b n (t ++ z) = jsReplaceGo p tk repl b 0 z := by
  subst h
  exact jsReplaceGo_skip p tk repl b t z

theorem exists_shift (S A R C : List Char) : ∃ a' c', S ++ (A ++ R ++ C) = a' ++ R ++ c' :=
  ⟨S ++ A, C, by simp⟩

theorem exists_shift_cons (d : Char) (A R C : List Char) :
    ∃ a' c', d :: (A ++ R ++ C) = a' ++ R ++ c' :=
  ⟨d :: A, C, by simp⟩

theorem jsReplaceGo_survive (tk repl w : List Char)
    (htk : ∀ c ∈ tk, (c == lbrace) = false)
    (hw : ∀ c ∈ w, (c == lbrace) = false)
    (hne : ∀ z, startsWith tk (w ++ rbrace :: z) = false) :
    ∀ (n : Nat) (x : List Char), x.length ≤ n → ∀ (y b : List Char),
      ∃ a c, jsReplaceGo lbrace tk repl b 0 (x ++ (lbrace :: w ++ [rbrace]) ++ y)
        = a ++ (lbrace :: w ++ [rbrace]) ++ c
  | n, [], _, y, b => by
    refine ⟨[], jsReplaceGo lbrace tk repl ((b ++ [lbrace] ++ w) ++ [rbrace]) 0 y, ?_⟩
    have hshape : ([] : List Char) ++ (lbrace :: w ++ [rbrace]) ++ y
        = lbrace :: (w ++ (rbrace :: y)) := by simp
    rw [hshape]
    have hcond : ((lbrace == lbrace) && startsWith tk (w ++ rbrace :: y)) = false := by
      simp [hne y]
    simp only [jsReplaceGo, List.append_eq, hcond, Bool.false_eq_true, if_false]
    rw [jsReplaceGo_lit lbrace tk repl w hw (rbrace :: y) (b ++ [lbrace])]
    have hrb : ((rbrace == lbrace) && startsWith tk y) = false := by
      have : (rbrace == lbrace) = false := by decide
      simp [this]
    simp only [jsReplaceGo, List.append_eq, hrb, Bool.false_eq_true, if_false]
    simp
  | 0, d :: x, hlen, y, b => absurd hlen (by simp)
  | m + 1, d :: x, hlen, y, b => by
    have hx : x.length ≤ m := by simpa using hlen
    have hshape : (d :: x) ++ (lbrace :: w ++ [rbrace]) ++ y
        = d :: (x ++ (lbrace :: (w ++ (rbrace :: y)))) := by simp
    rw [hshape]
    cases hcond : (d == lbrace) && startsWith tk (x ++ (lbrace :: (w ++ (rbrace :: y)))) with
    | false =>
      simp only [jsReplaceGo, List.append_eq, hcond, Bool.false_eq_true, if_false]
      obtain ⟨a, c, hac⟩ := jsReplaceGo_survive tk repl w htk hw hne m x hx y (b ++ [d])
      have hback : x ++ (lbrace :: (w ++ (rbrace :: y)))
          = x ++ (lbrace :: w ++ [rbrace]) ++ y := by simp
      rw [hback, hac]
      exact exists_shift_cons d a _ c
    | true =>
      simp only [jsReplaceGo, List.append_eq, hcond, if_true]
      have hsw : startsWith tk (x ++ lbrace :: (w ++ rbrace :: y)) = true := by
        have := hcond
        simp only [Bool.and_eq_true] at this
        exact this.2
      have hle : tk.length ≤ x.length := startsWith_length_le tk x _ htk hsw
      have htake : (List.take tk.length x).length = tk.length := by
        simp [Nat.min_eq_left hle]
      have hsplit : x ++ (lbrace :: (w ++ (rbrace :: y)))
          = List.take tk.length x
            ++ (List.drop tk.length x ++ (lbrace :: (w ++ (rbrace :: y)))) := by
        rw [← List.append_assoc, List.take_append_drop]
      rw [hsplit,
        jsReplaceGo_skipLen lbrace tk repl (b ++ lbrace :: tk) (List.take tk.length x) _
          tk.length htake]
      obtain ⟨a, c, hac⟩ := jsReplaceGo_survive tk repl w htk hw hne m (List.drop tk.length x)
        (Nat.le_trans (by simp) hx) y (b ++ lbrace :: tk)
      have hback : List.drop tk.length x ++ (lbrace :: (w ++ (rbrace :: y)))
          = List.drop tk.length x ++ (lbrace :: w ++ [rbrace]) ++ y := by simp
      rw [hback, hac]
      exact exists_shift _ a _ c

theorem enumFrom_filter_gt {α : Type} (i : Nat) :
    ∀ (k : Nat) (l : List α), i < k →
      (List.enumFrom k l).filter (fun q => q.1 != i) = List.enumFrom k l
  | _, [], _ => rfl
  | k, x :: xs, hik => by
    have hk : (k != i) = true := by
      rw [bne_iff_ne]
      exact Nat.ne_of_gt hik
    simp only [List.enumFrom, List.filter_cons, hk, if_true]
    rw [enumFrom_filter_gt i (k + 1) xs (Nat.lt_succ_of_lt hik)]

theorem enumFrom_filter_length {α : Type} (i : Nat) :
    ∀ (k : Nat) (l : List α),
      l.length - 1 ≤ ((List.enumFrom k l).filter (fun q => q.1 != i)).length
  | _, [] => by simp
  | k, x :: xs => by
    by_cases hk : k = i
    · subst hk
      simp only [List.enumFrom, List.filter_cons, bne_self_eq_false, Bool.false_eq_true, if_false]
      rw [enumFrom_filter_gt k (k + 1) xs (Nat.lt_succ_self k)]
      simp [List.enumFrom_length]
    · have hk2 : (k != i) = true := by rwa [bne_iff_ne]
      simp only [List.enumFrom, List.filter_cons, hk2, if_true, List.length_cons]
      have := enumFrom_filter_length i (k + 1) xs
      omega

theorem removeAt_length (names : List (List Char)) (i : Nat) :
    names.length - 1 ≤ (removeAt names i).length := by
  unfold removeAt
  rw [List.length_map]
  exact enumFrom_filter_length i 0 names

theorem getKey_setKey_self : ∀ (m : List (List Char × List Char)) (k v : List Char),
    getKey (setKey m k v) k = some v
  | [], k, v => by simp [setKey, getKey]
  | (k', v') :: rest, k, v => by
    by_cases h : k' = k
    · simp [setKey, getKey, h]
    · simp [setKey, getKey, h, getKey_setKey_self rest k v]

theorem getKey_setKey_other : ∀ (m : List (List Char × List Char)) (k v q : List Char),
    k ≠ q → getKey (setKey m k v) q = getKey m q
  | [], k, v, q, hne => by simp [setKey, getKey, hne]
  | (k', v') :: rest, k, v, q, hne => by
    by_cases h : k' = k
    · subst h
      simp [setKey, getKey, hne]
    · by_cases h2 : k' = q
      · subst h2
        simp [setKey, getKey, h]
      · simp [setKey, getKey, h, h2, getKey_setKey_other rest k v q hne]

theorem getKey_foldl_setKey :
    ∀ (images : List ImageRec) (m : List (List Char × List Char)) (comp : List Char),
      getKey (images.foldl (fun m img => setKey m img.component_name img.filename) m) comp
        = match (images.filter fun r => r.component_name == comp).getLast? with
          | some r => some r.filename
          | none => getKey m comp
  | [], m, comp => by simp
  | img :: rest, m, comp => by
    rw [List.foldl_cons, getKey_foldl_setKey rest _ comp]
    by_cases h : img.component_name = comp
    · rw [List.filter_cons, if_pos (by simp [h])]
      cases hT : (rest.filter fun r => r.component_name == comp) with
      | nil =>
        show getKey (setKey m img.component_name img.filename) comp = some img.filename
        rw [← h, getKey_setKey_self]
      | cons r t =>
        rw [show (img :: r :: t).getLast? = (r :: t).getLast? from rfl]
        cases hL : (r :: t).getLast? with
        | none => simp at hL
        | some r' => rfl
    · rw [List.filter_cons, if_neg (by simp [h])]
      cases hL : (rest.filter fun r => r.component_name == comp).getLast? with
      | none => exact getKey_setKey_other m img.component_name img.filename comp h
      | some r' => rfl

theorem jsReplace_survive_site (repl w x y : List Char) (hwb : braceFree w = true)
    (hne : w ≠ String.toList "site_id") :
    ∃ a c, jsReplace tokSite repl (x ++ (lbrace :: w ++ [rbrace]) ++ y)
      = a ++ (lbrace :: w ++ [rbrace]) ++ c := by
  rw [tokSite_cons]
  simp only [jsReplace]
  refine jsReplaceGo_survive tailSite repl w (by decide) (braceFree_noLBrace hwb)
    (fun z => ?_) x.length x (Nat.le_refl _) y []
  rw [show tailSite = String.toList "site_id" ++ [rbrace] from rfl]
  exact startsWith_tail_ne (String.toList "site_id") w z (by decide)
    (braceFree_noRBrace hwb) hne

theorem jsReplace_survive_cat (repl w x y : List Char) (hwb : braceFree w = true)
    (hne : w ≠ String.toList "category") :
    ∃ a c, jsReplace tokCategory repl (x ++ (lbrace :: w ++ [rbrace]) ++ y)
      = a ++ (lbrace :: w ++ [rbrace]) ++ c := by
  rw [tokCategory_cons]
  simp only [jsReplace]
  refine jsReplaceGo_survive tailCategory repl w (by decide) (braceFree_noLBrace hwb)
    (fun z => ?_) x.length x (Nat.le_refl _) y []
  rw [show tailCategory = String.toList "category" ++ [rbrace] from rfl]
  exact startsWith_tail_ne (String.toList "category") w z (by decide)
    (braceFree_noRBrace hwb) hne

theorem jsReplace_survive_comp (repl w x y : List Char) (hwb : braceFree w = true)
    (hne : w ≠ String.toList "component_name") :
    ∃ a c, jsReplace tokComponent repl (x ++ (lbrace :: w ++ [rbrace]) ++ y)
      = a ++ (lbrace :: w ++ [rbrace]) ++ c := by
  rw [tokComponent_cons]
  simp only [jsReplace]
  refine jsReplaceGo_survive tailComponent repl w (by decide) (braceFree_noLBrace hwb)
    (fun z => ?_) x.length x (Nat.le_refl _) y []
  rw [show tailComponent = String.toList "component_name" ++ [rbrace] from rfl]
  exact startsWith_tail_ne (String.toList "component_name") w z (by decide)
    (braceFree_noRBrace hwb) hne

/-- C1: for every naming-format string and every binding of site id and active
category, the filename rendered by `getPreviewFilename` (placeholder substitution,
then sanitization, then extension append) contains only characters from the set
[A-Za-z0-9_-.] and is never the empty string. -/
theorem c1_preview_charset_nonempty (format siteId activeCategory : List Char) :
    ((getPreviewFilename format siteId activeCategory).all
      fun c => isSafeChar c || c == '.') = true
    ∧ getPreviewFilename format siteId activeCategory ≠ [] := by
  constructor
  · simp only [getPreviewFilename, List.all_append, Bool.and_eq_true]
    constructor
    · simp only [sanitize, List.all_map, List.all_eq_true]
      intro c _
      by_cases h : isSafeChar c = true
      · simp [sanitizeChar, h]
      · simp [sanitizeChar, h]
        decide
    · decide
  · intro hc
    rw [getPreviewFilename] at hc
    have h2 := (List.append_eq_nil.mp hc).2
    exact absurd h2 (by decide)

/-- C1 witness: the property instantiated at the default format, a concrete
site id containing a space, and the alpha category. -/
theorem c1_preview_charset_nonempty_witness :
    ((getPreviewFilename (String.toList "{site_id}_{category}_{component_name}")
        (String.toList "SITE 1") (String.toList "alpha")).all
      fun c => isSafeChar c || c == '.') = true
    ∧ getPreviewFilename (String.toList "{site_id}_{category}_{component_name}")
        (String.toList "SITE 1") (String.toList "alpha") ≠ [] :=
  c1_preview_charset_nonempty (String.toList "{site_id}_{category}_{component_name}")
    (String.toList "SITE 1") (String.toList "alpha")

/-- C2 counterexample: with the format `{site_id}` and a site id whose value is
the text `{category}`, the sequential substitution yields `alpha` while the
order-independent simultaneous substitution leaves `{category}`; moreover the
result depends on the order of the passes. -/
theorem c2_counterexample :
    substSeq (String.toList "{site_id}") (String.toList "{category}")
        (String.toList "alpha") (String.toList "X")
      ≠ substSim (String.toList "{category}") (String.toList "alpha") (String.toList "X")
        (String.toList "{site_id}")
    ∧ jsReplace tokComponent (String.toList "X")
        (jsReplace tokSite (String.toList "{category}")
          (jsReplace tokCategory (String.toList "alpha") (String.toList "{site_id}")))
      ≠ substSeq (String.toList "{site_id}") (String.toList "{category}")
        (String.toList "alpha") (String.toList "X") := by
  constructor
  · decide
  · decide

/-- C2 amended: the renderer substitutes the three placeholders sequentially,
in the fixed order `{site_id}`, `{category}`, `{component_name}`; whenever the
format is a concatenation of brace-free literal runs and recognized placeholder
tokens and every bound value contains neither braces nor dollar characters, the
sequential result equals the order-independent simultaneous substitution. -/
theorem c2_sequential_eq_simultaneous (ps : List Piece) (site cat comp : List Char)
    (hps : wfPieces ps = true) (hs : cleanValue site = true) (hc : cleanValue cat = true)
    (hm : cleanValue comp = true) :
    substSeq (flatPieces ps) site cat comp = substSim site cat comp (flatPieces ps) :=
  substSeq_eq_substSim site cat comp hs hc hm ps hps

/-- C2 witness: the amended equality at the concrete format `img_{site_id}_v`
and clean concrete bindings. -/
theorem c2_sequential_eq_simultaneous_witness :
    wfPieces [Piece.lit (String.toList "img_"), Piece.site, Piece.lit (String.toList "_v")] = true
    ∧ cleanValue (String.toList "S1") = true
    ∧ cleanValue (String.toList "alpha") = true
    ∧ cleanValue (String.toList "Tower") = true
    ∧ substSeq (flatPieces [Piece.lit (String.toList "img_"), Piece.site,
          Piece.lit (String.toList "_v")])
        (String.toList "S1") (String.toList "alpha") (String.toList "Tower")
      = substSim (String.toList "S1") (String.toList "alpha") (String.toList "Tower")
        (flatPieces [Piece.lit (String.toList "img_"), Piece.site,
          Piece.lit (String.toList "_v")]) :=
  ⟨by decide, by decide, by decide, by decide,
    c2_sequential_eq_simultaneous
      [Piece.lit (String.toList "img_"), Piece.site, Piece.lit (String.toList "_v")]
      (String.toList "S1") (String.toList "alpha") (String.toList "Tower")
      (by decide) (by decide) (by decide) (by decide)⟩

/-- C3: for every format containing a brace-delimited token other than the three
recognized placeholders, rendering never fails: the token passes through all
three substitution passes verbatim and each of its characters outside
[A-Za-z0-9_-] — the braces included — is replaced by an underscore. -/
theorem c3_unknown_token_sanitized (pre w post siteId activeCategory : List Char)
    (hw : braceFree w = true)
    (h1 : w ≠ String.toList "site_id") (h2 : w ≠ String.toList "category")
    (h3 : w ≠ String.toList "component_name") :
    ∃ a b, getPreviewFilename (pre ++ (lbrace :: w ++ [rbrace]) ++ post) siteId activeCategory
      = a ++ ('_' :: sanitize w ++ ['_']) ++ b := by
  obtain ⟨a1, c1, e1⟩ := jsReplace_survive_site siteId w pre post hw h1
  obtain ⟨a2, c2, e2⟩ := jsReplace_survive_cat activeCategory w a1 c1 hw h2
  obtain ⟨a3, c3, e3⟩ := jsReplace_survive_comp sampleComponent w a2 c2 hw h3
  refine ⟨sanitize a3, sanitize c3 ++ String.toList ".jpg", ?_⟩
  simp only [getPreviewFilename, substSeq]
  rw [e1, e2, e3]
  simp only [sanitize, List.map_append, List.map_cons]
  rw [show sanitizeChar lbrace = '_' from by decide,
    show sanitizeChar rbrace = '_' from by decide]
  simp

/-- C3 witness: the survival property at the concrete format `x{foo}y`. -/
theorem c3_unknown_token_sanitized_witness :
    braceFree (String.toList "foo") = true
    ∧ (String.toList "foo" ≠ String.toList "site_id")
    ∧ (∃ a b, getPreviewFilename (String.toList "x" ++ (lbrace :: String.toList "foo"
          ++ [rbrace]) ++ String.toList "y") (String.toList "S1") (String.toList "alpha")
        = a ++ ('_' :: sanitize (String.toList "foo") ++ ['_']) ++ b) :=
  ⟨by decide, by decide,
    c3_unknown_token_sanitized (String.toList "x") (String.toList "foo") (String.toList "y")
      (String.toList "S1") (String.toList "alpha")
      (by decide) (by decide) (by decide) (by decide)⟩

/-- C4 counterexample: with the format `photo` and an upload whose original
extension is `PNG`, the claim predicts the suffix `.png`, but the preview
renders `photo.jpg`: the appended extension is a constant, not the upload's. -/
theorem c4_counterexample :
    getPreviewFilename (String.toList "photo") (String.toList "S1") (String.toList "alpha")
      = String.toList "photo.jpg"
    ∧ getPreviewFilename (String.toList "photo") (String.toList "S1") (String.toList "alpha")
      ≠ String.toList "photo" ++ '.' :: (String.toList "PNG").map Char.toLower := by
  constructor
  · decide
  · decide

/-- C4 amended: the suffix appended after sanitization is the fixed constant
`.jpg` for every format and binding, independent of any uploaded file's
extension: the last four characters of every preview filename are `.jpg`. -/
theorem c4_fixed_jpg_suffix (format siteId activeCategory : List Char) :
    (getPreviewFilename format siteId activeCategory).drop
        ((getPreviewFilename format siteId activeCategory).length - 4) = String.toList ".jpg" := by
  rw [getPreviewFilename, List.length_append,
    show (String.toList ".jpg").length = 4 from rfl, Nat.add_sub_cancel]
  exact List.drop_left _ _

/-- C5 counterexample: the caller-side preview drifts from the section-4.1
renderer contract: at format `photo` with uploaded extension `png` the contract
yields `photo.png` but the preview yields `photo.jpg`; and at format `{site_id}`
with a site id containing `{category}` the two differ even with extension `jpg`. -/
theorem c5_counterexample :
    getPreviewFilename (String.toList "photo") (String.toList "S1") (String.toList "alpha")
      ≠ render (String.toList "photo") (String.toList "S1") (String.toList "alpha")
          sampleComponent (String.toList "png")
    ∧ getPreviewFilename (String.toList "{site_id}") (String.toList "{category}")
        (String.toList "alpha")
      ≠ render (String.toList "{site_id}") (String.toList "{category}")
          (String.toList "alpha") sampleComponent (String.toList "jpg") := by
  constructor
  · decide
  · decide

/-- C5 amended: the preview function computes the section-4.1 renderer exactly
when the latter is specialized to the preview's synthetic binding — extension
`jpg`, component `Antenna_Front_View` — and restricted to formats made of
brace-free literals and recognized tokens with brace- and dollar-free site and
category values; outside that range the two renderings drift. -/
theorem c5_preview_matches_contract (ps : List Piece) (siteId activeCategory : List Char)
    (hps : wfPieces ps = true) (hs : cleanValue siteId = true)
    (hc : cleanValue activeCategory = true) :
    getPreviewFilename (flatPieces ps) siteId activeCategory
      = render (flatPieces ps) siteId activeCategory sampleComponent (String.toList "jpg") := by
  rw [getPreviewFilename, render,
    substSeq_eq_substSim siteId activeCategory sampleComponent hs hc (by decide) ps hps]
  rfl

/-- C5 witness: the agreement at the concrete format `{site_id}_{category}`. -/
theorem c5_preview_matches_contract_witness :
    wfPieces [Piece.site, Piece.lit (String.toList "_"), Piece.cat] = true
    ∧ cleanValue (String.toList "S1") = true
    ∧ cleanValue (String.toList "beta") = true
    ∧ getPreviewFilename (flatPieces [Piece.site, Piece.lit (String.toList "_"), Piece.cat])
        (String.toList "S1") (String.toList "beta")
      = render (flatPieces [Piece.site, Piece.lit (String.toList "_"), Piece.cat])
          (String.toList "S1") (String.toList "beta") sampleComponent (String.toList "jpg") :=
  ⟨by decide, by decide, by decide,
    c5_preview_matches_contract [Piece.site, Piece.lit (String.toList "_"), Piece.cat]
      (String.toList "S1") (String.toList "beta") (by decide) (by decide) (by decide)⟩

/-- C6: replacing the component registry with an empty sequence always fails
with `EmptyTaxonomyError` and leaves the stored list unchanged and retrievable
via `listComponents`; the removal handler rejects removal from a length-one
list, leaving it unchanged; and removal never empties a non-empty list. -/
theorem c6_registry_never_empty :
    (∀ stored : List (List Char),
      replaceComponents stored [] = (ReplaceOutcome.emptyTaxonomyError, stored)
      ∧ listComponents (replaceComponents stored []).2 = listComponents stored)
    ∧ (∀ (names : List (List Char)) (index : Nat), names.length = 1 →
        handleRemoveComponent names index = ⟨true, names⟩)
    ∧ (∀ (names : List (List Char)) (index : Nat), names ≠ [] →
        (handleRemoveComponent names index).names ≠ []) := by
  refine ⟨fun stored => ⟨rfl, rfl⟩, fun names index h => ?_, fun names index h => ?_⟩
  · rw [handleRemoveComponent, if_pos (by omega)]
  · rw [handleRemoveComponent]
    by_cases hlen : names.length ≤ 1
    · rw [if_pos hlen]
      exact h
    · rw [if_neg hlen]
      show removeAt names index ≠ []
      intro hcontra
      have h1 := removeAt_length names index
      rw [hcontra] at h1
      simp only [List.length_nil] at h1
      omega

/-- C6 witness: removing from the one-entry list `[Tower]` is rejected and the
list is unchanged. -/
theorem c6_registry_never_empty_witness :
    ([String.toList "Tower"] : List (List Char)).length = 1
    ∧ handleRemoveComponent [String.toList "Tower"] 0 = ⟨true, [String.toList "Tower"]⟩ :=
  ⟨rfl, c6_registry_never_empty.2.1 [String.toList "Tower"] 0 rfl⟩

/-- C7: every operation works over exactly the three fixed category
identifiers alpha, beta, gamma: the category tabs and the category-edit modal
enumerate them literally; the displayed label mapping is total — for every
identifier a non-empty label, falling back to the capitalized identifier when
none is stored — label edits leave the identifier list untouched; and the
archive builder consults the slot store only at those three identifiers (its
output is unchanged by any difference outside them) and binds the category of
every container entry to one of them. -/
theorem c7_categories_fixed_total :
    categories = [String.toList "alpha", String.toList "beta", String.toList "gamma"]
    ∧ (∀ labels c, c ∈ categories → displayLabel labels c ≠ [])
    ∧ (∀ labels c, c ∈ categories → getKey labels c = none →
        displayLabel labels c = capitalize c)
    ∧ (∀ labels k v, (categoryTabs (setKey labels k v)).map Prod.fst = categories)
    ∧ (∀ slots slots' format site extOf, (∀ c ∈ categories, slots c = slots' c) →
        buildArchive slots format site extOf = buildArchive slots' format site extOf)
    ∧ (∀ slots format site extOf es, buildArchive slots format site extOf = some es →
        ∀ e ∈ es, ∃ cat ∈ categories, ∃ r ∈ slots cat,
          e = (render format site cat r.component_name (extOf r), r.filename)) := by
  refine ⟨rfl, ?_, ?_, ?_, ?_, ?_⟩
  · intro labels c hc
    have hcap : capitalize c ≠ [] := by
      simp only [categories, List.mem_cons, List.not_mem_nil, or_false] at hc
      rcases hc with rfl | rfl | rfl <;> decide
    rw [displayLabel]
    cases hk : getKey labels c with
    | none => exact hcap
    | some l =>
      show (if l.isEmpty = true then capitalize c else l) ≠ []
      by_cases hl : l.isEmpty = true
      · rw [if_pos hl]
        exact hcap
      · rw [if_neg hl]
        intro hcontra
        rw [hcontra] at hl
        exact hl rfl
  · intro labels c _ hnone
    rw [displayLabel, hnone]
  · intro labels k v
    simp only [categoryTabs, List.map_map]
    exact List.map_id'' (fun x => rfl) categories
  · intro slots slots' format site extOf h
    rw [buildArchive, buildArchive,
      List.map_eq_map_iff.mpr fun c hc => by rw [h c hc]]
  · intro slots format site extOf es hes e he
    rw [buildArchive] at hes
    by_cases hcond : ((categories.map fun cat =>
        (slots cat).map fun r =>
          (render format site cat r.component_name (extOf r), r.filename)).flatten).isEmpty = true
    · rw [if_pos hcond] at hes
      exact Option.noConfusion hes
    · rw [if_neg hcond] at hes
      rw [← Option.some.inj hes] at he
      rcases List.mem_flatten.mp he with ⟨l, hl, hel⟩
      rcases List.mem_map.mp hl with ⟨cat, hcat, rfl⟩
      rcases List.mem_map.mp hel with ⟨r, hr, rfl⟩
      exact ⟨cat, hcat, r, hr, rfl⟩

/-- C7 witness: alpha is among the fixed identifiers, its displayed label is
non-empty even with no stored labels, and a concrete one-slot archive's single
entry is bound to a category among the fixed three. -/
theorem c7_categories_fixed_total_witness :
    (String.toList "alpha" ∈ categories)
    ∧ displayLabel [] (String.toList "alpha") ≠ []
    ∧ (buildArchive
        (fun c => if c = String.toList "alpha"
          then [ImageRec.mk (String.toList "Tower") (String.toList "ab.jpg")] else [])
        (String.toList "{category}") (String.toList "S1") (fun _ => String.toList "jpg")
        = some [(String.toList "alpha.jpg", String.toList "ab.jpg")])
    ∧ (∃ cat ∈ categories,
        ∃ r ∈ (fun c => if c = String.toList "alpha"
            then [ImageRec.mk (String.toList "Tower") (String.toList "ab.jpg")] else [])
          cat,
        (String.toList "alpha.jpg", String.toList "ab.jpg")
          = (render (String.toList "{category}") (String.toList "S1") cat r.component_name
              (String.toList "jpg"), r.filename)) :=
  ⟨by decide, c7_categories_fixed_total.2.1 [] (String.toList "alpha") (by decide),
    by decide,
    c7_categories_fixed_total.2.2.2.2.2
      (fun c => if c = String.toList "alpha"
        then [ImageRec.mk (String.toList "Tower") (String.toList "ab.jpg")] else [])
      (String.toList "{category}") (String.toList "S1") (fun _ => String.toList "jpg")
      [(String.toList "alpha.jpg", String.toList "ab.jpg")] (by decide)
      (String.toList "alpha.jpg", String.toList "ab.jpg") (by decide)⟩

/-- C8: the mapping materialized by `fetchCategoryImages` has a key for a
component name exactly when some response record (a filled slot) carries that
name; an empty slot is simply absent, not a null entry; and `getImageUrl`
yields no reference exactly for the absent keys, provided every stored
filename is non-empty. -/
theorem c8_key_iff_filled (images : List ImageRec) (comp : List Char)
    (hfn : ∀ r ∈ images, r.filename ≠ []) :
    ((getKey (buildImagesMap images) comp).isSome = true
      ↔ comp ∈ images.map ImageRec.component_name)
    ∧ (∀ backendUrl siteId activeCategory,
        getImageUrl (buildImagesMap images) backendUrl siteId activeCategory comp = none
          ↔ comp ∉ images.map ImageRec.component_name) := by
  have hmem : comp ∈ images.map ImageRec.component_name
      ↔ (images.filter fun r => r.component_name == comp) ≠ [] := by
    constructor
    · intro hin hnil
      rw [List.filter_eq_nil_iff] at hnil
      rcases List.mem_map.mp hin with ⟨r, hr, hrc⟩
      exact hnil r hr (by simp [hrc])
    · intro hne
      cases hS : images.filter fun r => r.component_name == comp with
      | nil => exact absurd hS hne
      | cons r t =>
        have hrS : r ∈ images.filter fun r => r.component_name == comp := by
          rw [hS]
          exact List.mem_cons_self ..
        have hsplit := List.mem_filter.mp hrS
        exact List.mem_map.mpr ⟨r, hsplit.1, by simpa using hsplit.2⟩
  have hkey : getKey (buildImagesMap images) comp
      = match (images.filter fun r => r.component_name == comp).getLast? with
        | some r => some r.filename
        | none => none :=
    getKey_foldl_setKey images [] comp
  constructor
  · rw [hkey, hmem]
    cases hL : (images.filter fun r => r.component_name == comp).getLast? with
    | none =>
      rw [List.getLast?_eq_none_iff] at hL
      simp [hL]
    | some r =>
      have hne : (images.filter fun r => r.component_name == comp) ≠ [] := by
        intro hnil
        rw [hnil] at hL
        exact Option.noConfusion hL
      simp [hne]
  · intro backendUrl siteId activeCategory
    rw [getImageUrl, hkey]
    cases hL : (images.filter fun r => r.component_name == comp).getLast? with
    | none =>
      rw [List.getLast?_eq_none_iff] at hL
      simp [hmem, hL]
    | some r =>
      have hrin : r ∈ images :=
        List.mem_of_mem_filter (List.mem_of_mem_getLast? hL)
      have hrfn : r.filename ≠ [] := hfn r hrin
      have hempty : r.filename.isEmpty = false := by
        cases hf : r.filename with
        | nil => exact absurd hf hrfn
        | cons a l => rfl
      have hne : (images.filter fun r => r.component_name == comp) ≠ [] := by
        intro hnil
        rw [hnil] at hL
        exact Option.noConfusion hL
      show (if r.filename.isEmpty = true then none else some _) = none ↔ _
      rw [if_neg (by rw [hempty]; exact Bool.false_ne_true)]
      simp [hmem, hne]

/-- C8 witness: a one-record response for component Tower gives a present key
for Tower, and its image reference resolves. -/
theorem c8_key_iff_filled_witness :
    (∀ r ∈ [ImageRec.mk (String.toList "Tower") (String.toList "ab.jpg")],
      r.filename ≠ [])
    ∧ ((getKey (buildImagesMap
          [ImageRec.mk (String.toList "Tower") (String.toList "ab.jpg")])
        (String.toList "Tower")).isSome = true
      ↔ String.toList "Tower"
          ∈ ([ImageRec.mk (String.toList "Tower") (String.toList "ab.jpg")]).map
            ImageRec.component_name) :=
  ⟨by decide,
    (c8_key_iff_filled [ImageRec.mk (String.toList "Tower") (String.toList "ab.jpg")]
      (String.toList "Tower") (by decide)).1⟩

/-- C9: when several response records carry the same component name, the later
record silently overwrites the earlier one: the mapping holds exactly the
last-enumerated record's filename for that name, and no error is possible. -/
theorem c9_collision_last_wins (images : List ImageRec) (comp : List Char) :
    getKey (buildImagesMap images) comp
      = Option.map ImageRec.filename
          ((images.filter fun r => r.component_name == comp).getLast?) := by
  rw [show getKey (buildImagesMap images) comp
      = match (images.filter fun r => r.component_name == comp).getLast? with
        | some r => some r.filename
        | none => none
    from getKey_foldl_setKey images [] comp]
  cases (images.filter fun r => r.component_name == comp).getLast? with
  | none => rfl
  | some r => rfl

/-- C10: the landing-page submission navigates exactly when the entered site id
is non-empty after trimming; the site identifier used from then on is the
trimmed token; and a whitespace-only id is never accepted. -/
theorem c10_submit_trims_site_id (siteId : List Char) :
    ((handleSubmit siteId).isSome = true ↔ jsTrim siteId ≠ [])
    ∧ (∀ target, handleSubmit siteId = some target →
        target = String.toList "/upload/" ++ jsTrim siteId)
    ∧ ((∀ c ∈ siteId, isJsWhitespace c = true) → handleSubmit siteId = none) := by
  refine ⟨?_, ?_, ?_⟩
  · rw [handleSubmit]
    by_cases h : (jsTrim siteId).isEmpty = true
    · rw [if_pos h]
      simp only [Option.isSome_none, Bool.false_eq_true, false_iff, Ne, not_not]
      exact List.isEmpty_iff.mp h
    · rw [if_neg h]
      simp only [Option.isSome_some, true_iff]
      intro hcontra
      rw [hcontra] at h
      exact h rfl
  · intro target htarget
    rw [handleSubmit] at htarget
    by_cases h : (jsTrim siteId).isEmpty = true
    · rw [if_pos h] at htarget
      exact Option.noConfusion htarget
    · rw [if_neg h] at htarget
      exact (Option.some.inj htarget).symm
  · intro hws
    have htrim : jsTrim siteId = [] := by
      rw [jsTrim, List.dropWhile_eq_nil_iff.mpr hws]
      rfl
    rw [handleSubmit, if_pos (by rw [htrim]; rfl)]

/-- C10 witness: a padded site id navigates to the trimmed token, and a
whitespace-only id is rejected. -/
theorem c10_submit_trims_site_id_witness :
    (jsTrim (String.toList "  SITE-1 ") ≠ [])
    ∧ ((handleSubmit (String.toList "  SITE-1 ")).isSome = true)
    ∧ (∀ c ∈ String.toList "   ", isJsWhitespace c = true)
    ∧ handleSubmit (String.toList "   ") = none
    ∧ (∀ c ∈ [Char.ofNat 0x3000], isJsWhitespace c = true)
    ∧ handleSubmit [Char.ofNat 0x3000] = none :=
  ⟨by decide,
    (c10_submit_trims_site_id (String.toList "  SITE-1 ")).1.mpr (by decide),
    by decide,
    (c10_submit_trims_site_id (String.toList "   ")).2.2 (by decide),
    by decide,
    (c10_submit_trims_site_id [Char.ofNat 0x3000]).2.2 (by decide)⟩
